import Mathlib

/-!
Verification of the toast notification store
(`src/client/hooks/use-toast.js`): a shallow embedding of the
four-action reducer, the removal scheduler (`addToRemoveQueue` over the
`toastTimeouts` map), the listener registry with `dispatch`, and the
`toast(props)` facade, together with theorems about the store's
contract.

Modelling conventions:
* A JS toast object is a record of its `id`, its `open` flag, and its
  opaque display payloads (`title`, `description`).  The payloads are
  never inspected by the store, so modelling them as strings loses
  nothing.
* `UPDATE_TOAST` carries a partial toast; a partial is a record of
  `Option` fields, where `none` means "field absent from the object
  literal", and the JS spread `{ ...t, ...action.toast }` becomes
  `mergeToast`.
* `toastId` parameters typed `string | undefined` become
  `Option String`; the JS truthiness test `if (toastId)` is false for
  both `undefined` and the empty string, which `truthyId` captures.
* The `toastTimeouts : Map<string, Timeout>` is modelled by its key
  list in insertion order (`Map.set` appends a fresh key, `Map.has`
  tests membership); the timer handles themselves carry no information
  the claims need.
* Listeners are identified by tokens (`Nat`); `dispatch` returns, next
  to the updated store, the ordered list of notifications it performs,
  each pairing a listener with the state it is invoked with.
-/

namespace UseToast

/-- `TOAST_LIMIT` from the source. -/
def TOAST_LIMIT : Nat := 1

/-- `TOAST_REMOVE_DELAY` from the source (milliseconds). -/
def TOAST_REMOVE_DELAY : Nat := 1000000

/-- `Number.MAX_SAFE_INTEGER`, the modulus of the id counter. -/
def MAX_SAFE_INTEGER : Nat := 2 ^ 53 - 1

/-- A toast held in the store: `id`, the `open` flag (modelled as
`isOpen`, since `open` is a Lean keyword), and the opaque display
payloads. -/
structure Toast where
  id : String
  isOpen : Bool
  title : String
  description : String
deriving DecidableEq, Repr

/-- The store state `{ toasts }`, newest first. -/
@[ext]
structure ToastState where
  toasts : List Toast
deriving DecidableEq, Repr

/-- A partial toast as carried by `UPDATE_TOAST`: `id` plus optional
fields (`none` = absent from the object literal). -/
structure ToastPatch where
  id : String
  isOpen : Option Bool
  title : Option String
  description : Option String
deriving DecidableEq, Repr

/-- The JS spread `{ ...t, ...action.toast }`: fields present in the
partial override those of `t`; the partial's `id` (which the reducer
has already matched against `t.id`) lands in the result. -/
def mergeToast (t : Toast) (p : ToastPatch) : Toast :=
  { id := p.id
    isOpen := p.isOpen.getD t.isOpen
    title := p.title.getD t.title
    description := p.description.getD t.description }

/-- The four action kinds of the reducer. -/
inductive Action where
  | add (toast : Toast)
  | update (toast : ToastPatch)
  | dismiss (toastId : Option String)
  | remove (toastId : Option String)
deriving DecidableEq, Repr

/-- JS truthiness of a `string | undefined` value: `undefined` and
`""` are falsy. -/
def truthyId : Option String → Bool
  | none => false
  | some s => s != ""

/-- The pure part of the reducer: the state transformation of each
`case` of the `switch`, side effects excluded.  `DISMISS_TOAST` marks
a toast closed when `t.id === toastId || toastId === undefined`;
`REMOVE_TOAST` with an id keeps the toasts whose id differs, and with
`undefined` clears the list. -/
def reducer (state : ToastState) (action : Action) : ToastState :=
  match action with
  | .add t => { state with toasts := (t :: state.toasts).take TOAST_LIMIT }
  | .update p =>
      { state with
        toasts := state.toasts.map fun t =>
          if t.id = p.id then mergeToast t p else t }
  | .dismiss tid =>
      { state with
        toasts := state.toasts.map fun t =>
          if tid = some t.id ∨ tid = none then { t with isOpen := false }
          else t }
  | .remove tid =>
      match tid with
      | none => { state with toasts := [] }
      | some x => { state with toasts := state.toasts.filter fun t => t.id != x }

/-- `addToRemoveQueue` restricted to the data the claims concern: the
key set of `toastTimeouts`.  If the id already has a pending timeout
the call returns at once; otherwise `Map.set` appends the key. -/
def addToRemoveQueue (timeouts : List String) (toastId : String) : List String :=
  if toastId ∈ timeouts then timeouts else timeouts ++ [toastId]

/-- The scheduling side effect performed by the `DISMISS_TOAST` case
before the pure merge: `if (toastId)` schedules that id alone, else
every current toast's id is scheduled in order. -/
def dismissSchedule (timeouts : List String) (toasts : List Toast)
    (tid : Option String) : List String :=
  if truthyId tid then addToRemoveQueue timeouts (tid.getD "")
  else toasts.foldl (fun m t => addToRemoveQueue m t.id) timeouts

/-- The module-level mutable cells touched by one `dispatch`:
`memoryState` and the `toastTimeouts` key list. -/
@[ext]
structure World where
  memoryState : ToastState
  toastTimeouts : List String
deriving DecidableEq, Repr

/-- One `dispatch(action)` as it affects `memoryState` and
`toastTimeouts`: the reducer runs, and the `DISMISS_TOAST` case also
performs its scheduling side effect on the timeout map. -/
def applyAction (w : World) (a : Action) : World :=
  match a with
  | .dismiss tid =>
      { memoryState := reducer w.memoryState (.dismiss tid)
        toastTimeouts := dismissSchedule w.toastTimeouts w.memoryState.toasts tid }
  | a => { w with memoryState := reducer w.memoryState a }

/-- A world folded over a list of dispatched actions. -/
def applyActions (w : World) (l : List Action) : World :=
  l.foldl applyAction w

/-- The pure reducer folded over a list of actions. -/
def reduceAll (s : ToastState) (l : List Action) : ToastState :=
  l.foldl reducer s

/-- The toast with id `x` is dismissed in `s`: every entry carrying
that id has `open = false`. -/
def dismissedFor (x : String) (s : ToastState) : Prop :=
  ∀ t ∈ s.toasts, t.id = x → t.isOpen = false

/-- An action that cannot set `open` back to `true` for id `x`: an
`ADD_TOAST` whose toast reuses `x` must carry `open = false`, and an
`UPDATE_TOAST` targeting `x` must not put `open: true` in its partial.
`DISMISS_TOAST` and `REMOVE_TOAST` are always safe. -/
def safeFor (x : String) : Action → Bool
  | .add t => t.id != x || t.isOpen == false
  | .update p => p.id != x || p.isOpen == none || p.isOpen == some false
  | .dismiss _ => true
  | .remove _ => true

instance (x : String) (s : ToastState) : Decidable (dismissedFor x s) := by
  unfold dismissedFor
  infer_instance

/-- The listener registry next to the current state: listeners are
identified by tokens held in registration order. -/
@[ext]
structure Store where
  memoryState : ToastState
  listeners : List Nat
deriving DecidableEq, Repr

/-- `listeners.push(listener)` of `useToast`'s effect. -/
def subscribe (st : Store) (l : Nat) : Store :=
  { st with listeners := st.listeners ++ [l] }

/-- The unsubscribe cleanup: `indexOf` then `splice(index, 1)` removes
the first occurrence of the listener, and does nothing when `indexOf`
returns `-1`. -/
def unsubscribe (st : Store) (l : Nat) : Store :=
  { st with listeners := st.listeners.erase l }

/-- `dispatch(action)` seen from the registry: the reducer's result
replaces `memoryState`, then `listeners.forEach` invokes each listener
with the new state.  The returned list records the notifications in
the order they are performed. -/
def dispatchNotify (st : Store) (a : Action) : Store × List (Nat × ToastState) :=
  let s := reducer st.memoryState a
  ({ st with memoryState := s }, st.listeners.map fun l => (l, s))

/-- `genId()`: the counter is bumped modulo `Number.MAX_SAFE_INTEGER`
and stringified. -/
def genId (count : Nat) : Nat × String :=
  let c := (count + 1) % MAX_SAFE_INTEGER
  (c, Nat.repr c)

/-- The caller-supplied props of `toast(props)`: the opaque display
payloads. -/
structure ToastInput where
  title : String
  description : String
deriving DecidableEq, Repr

/-- The toast object synthesized by `toast(props)`:
`{ ...props, id, open: true, ... }`. -/
def makeToast (props : ToastInput) (id : String) : Toast :=
  { id := id, isOpen := true, title := props.title, description := props.description }

/-- The `onOpenChange` callback synthesized by `toast(props)`:
`(open) => { if (!open) dismiss() }` where `dismiss` dispatches
`DISMISS_TOAST` with the captured id.  The result is the action the
callback dispatches, if any. -/
def toastOnOpenChange (id : String) (op : Bool) : Option Action :=
  if op then none else some (.dismiss (some id))

/-- The action dispatched by the returned `update(props)` closure. -/
def toastUpdateAction (id : String) (p : ToastPatch) : Action :=
  .update { p with id := id }

/-- `toast(props)`: draw a fresh id from the counter and dispatch
`ADD_TOAST` with the synthesized toast.  Returns the new counter, the
id the closures are bound to, and the world after the dispatch. -/
def toastCall (props : ToastInput) (count : Nat) (w : World) :
    Nat × String × World :=
  let (c, id) := genId count
  (c, id, applyAction w (.add (makeToast props id)))

/-! ### Helper lemmas -/

/-- Membership in the timeout list after one scheduling call. -/
theorem mem_addToRemoveQueue (m : List String) (x y : String) :
    y ∈ addToRemoveQueue m x ↔ y ∈ m ∨ y = x := by
  unfold addToRemoveQueue
  split
  · constructor
    · exact Or.inl
    · rintro (h | rfl)
      · exact h
      · assumption
  · simp

/-- Scheduling keeps the timeout keys duplicate-free. -/
theorem nodup_addToRemoveQueue (m : List String) (x : String)
    (h : m.Nodup) : (addToRemoveQueue m x).Nodup := by
  unfold addToRemoveQueue
  split
  · exact h
  · simp [List.nodup_append, h, *]

/-- Scheduling an id already pending is a no-op. -/
theorem addToRemoveQueue_of_mem (m : List String) (x : String)
    (h : x ∈ m) : addToRemoveQueue m x = m := by
  simp [addToRemoveQueue, h]

/-- Membership after scheduling every toast of a list. -/
theorem mem_schedule_foldl (ts : List Toast) (m : List String) (y : String) :
    y ∈ ts.foldl (fun m t => addToRemoveQueue m t.id) m ↔
      y ∈ m ∨ ∃ t ∈ ts, y = t.id := by
  induction ts generalizing m with
  | nil => simp
  | cons t ts ih =>
      simp only [List.foldl_cons, ih, mem_addToRemoveQueue, List.mem_cons]
      constructor
      · rintro ((h | rfl) | ⟨u, hu, rfl⟩)
        · exact Or.inl h
        · exact Or.inr ⟨t, Or.inl rfl, rfl⟩
        · exact Or.inr ⟨u, Or.inr hu, rfl⟩
      · rintro (h | ⟨u, (rfl | hu), rfl⟩)
        · exact Or.inl (Or.inl h)
        · exact Or.inl (Or.inr rfl)
        · exact Or.inr ⟨u, hu, rfl⟩

/-- Scheduling every toast of a list keeps the keys duplicate-free. -/
theorem nodup_schedule_foldl (ts : List Toast) (m : List String)
    (h : m.Nodup) :
    (ts.foldl (fun m t => addToRemoveQueue m t.id) m).Nodup := by
  induction ts generalizing m with
  | nil => exact h
  | cons t ts ih => exact ih _ (nodup_addToRemoveQueue _ _ h)

/-! ### Theorems for the claims -/

/-- C1: `REMOVE_TOAST` with a `toastId` deletes exactly the entries
carrying that id and keeps every other toast in order (the result is a
sublist of the original whose members are precisely the toasts with a
different id); `REMOVE_TOAST` with `toastId` omitted empties the
sequence whatever its prior length. -/
theorem remove_deletes_matching_id (s : ToastState) (x : String) :
    (reducer s (.remove (some x))).toasts.Sublist s.toasts ∧
    (∀ t, t ∈ (reducer s (.remove (some x))).toasts ↔
        t ∈ s.toasts ∧ t.id ≠ x) ∧
    (reducer s (.remove none)).toasts = [] := by
  refine ⟨?_, ?_, rfl⟩
  · exact List.filter_sublist s.toasts
  · intro t
    simp [reducer, List.mem_filter]

/-- C4: removing an id absent from the state is a structural no-op,
and applying `REMOVE_TOAST` for the same id twice equals applying it
once. -/
theorem remove_idempotent (s : ToastState) (x : String) :
    ((∀ t ∈ s.toasts, t.id ≠ x) → reducer s (.remove (some x)) = s) ∧
    reducer (reducer s (.remove (some x))) (.remove (some x)) =
      reducer s (.remove (some x)) := by
  constructor
  · intro h
    ext1
    simp only [reducer]
    exact List.filter_eq_self.mpr fun t ht => by simpa using h t ht
  · ext1
    simp only [reducer]
    exact List.filter_eq_self.mpr fun t ht => (List.mem_filter.mp ht).2

/-- Witness for `remove_idempotent` at a concrete state and id. -/
theorem remove_idempotent_spot :
    (∀ t ∈ (ToastState.mk [Toast.mk "1" true "a" "b"]).toasts, t.id ≠ "2") ∧
    reducer (ToastState.mk [Toast.mk "1" true "a" "b"]) (.remove (some "2")) =
      ToastState.mk [Toast.mk "1" true "a" "b"] :=
  ⟨by decide, (remove_idempotent ⟨[⟨"1", true, "a", "b"⟩]⟩ "2").1 (by decide)⟩

/-- C5: after any `ADD_TOAST` (at any point of a sequence of ADDs) the
toast list has length at most `TOAST_LIMIT` and its head is the toast
just added. -/
theorem add_respects_limit (s : ToastState) (pre : List Toast) (t : Toast) :
    (reducer (reduceAll s (pre.map .add)) (.add t)).toasts.length ≤ TOAST_LIMIT ∧
    (reducer (reduceAll s (pre.map .add)) (.add t)).toasts.head? = some t := by
  constructor
  · exact List.length_take_le TOAST_LIMIT _
  · simp [reducer, TOAST_LIMIT]

/-- C8: `UPDATE_TOAST` for an id not present in the state is a silent
structural no-op, and in general the toast at each position is the
shallow merge of the old toast with the partial when the ids match,
and the old toast unchanged otherwise. -/
theorem update_merge_or_noop (s : ToastState) (p : ToastPatch) :
    ((∀ t ∈ s.toasts, t.id ≠ p.id) → reducer s (.update p) = s) ∧
    ∀ i : Nat, (reducer s (.update p)).toasts[i]? =
      (s.toasts[i]?).map fun t => if t.id = p.id then mergeToast t p else t := by
  constructor
  · intro h
    ext1
    simp only [reducer]
    rw [List.map_congr_left fun t ht => if_neg (h t ht), List.map_id']
  · intro i
    simp [reducer]

/-- Witness for `update_merge_or_noop`: updating an absent id leaves a
concrete state unchanged. -/
theorem update_merge_or_noop_spot :
    (∀ t ∈ (ToastState.mk [Toast.mk "1" true "a" "b"]).toasts, t.id ≠ "9") ∧
    reducer (ToastState.mk [Toast.mk "1" true "a" "b"])
        (.update (ToastPatch.mk "9" (some false) none none)) =
      ToastState.mk [Toast.mk "1" true "a" "b"] :=
  ⟨by decide,
   (update_merge_or_noop ⟨[⟨"1", true, "a", "b"⟩]⟩
      ⟨"9", some false, none, none⟩).1 (by decide)⟩

/-- C6: `DISMISS_TOAST` with `toastId` omitted sets `open = false` on
every toast present, touching no other field, and afterwards the
timeout map holds exactly one pending-removal entry for each toast id
present at call time. -/
theorem dismiss_all_closes_and_schedules (w : World)
    (hn : w.toastTimeouts.Nodup) :
    (applyAction w (.dismiss none)).memoryState.toasts =
      w.memoryState.toasts.map (fun t => { t with isOpen := false }) ∧
    ∀ t ∈ w.memoryState.toasts,
      (applyAction w (.dismiss none)).toastTimeouts.count t.id = 1 := by
  constructor
  · simp [applyAction, reducer]
  · intro t ht
    apply List.count_eq_one_of_mem
    · exact nodup_schedule_foldl _ _ hn
    · exact (mem_schedule_foldl _ _ _).mpr (Or.inr ⟨t, ht, rfl⟩)

/-- Witness for `dismiss_all_closes_and_schedules` on a concrete
world. -/
theorem dismiss_all_closes_and_schedules_spot :
    ([] : List String).Nodup ∧
    (applyAction (World.mk ⟨[Toast.mk "1" true "a" "b"]⟩ [])
        (.dismiss none)).memoryState.toasts =
      [Toast.mk "1" false "a" "b"] ∧
    (applyAction (World.mk ⟨[Toast.mk "1" true "a" "b"]⟩ [])
        (.dismiss none)).toastTimeouts.count "1" = 1 := by
  have h := dismiss_all_closes_and_schedules
    (World.mk ⟨[Toast.mk "1" true "a" "b"]⟩ []) (by decide)
  exact ⟨by decide, h.1, h.2 ⟨"1", true, "a", "b"⟩ (by decide)⟩

/-- C7: the removal scheduler is idempotent per id — scheduling an id
already pending is a no-op, scheduling twice equals scheduling once,
the key list stays duplicate-free, and after two successive
`DISMISS_TOAST` dispatches for the same id the timeout map holds
exactly one entry for that id. -/
theorem schedule_idempotent (w : World) (x : String) (hx : x ≠ "")
    (hn : w.toastTimeouts.Nodup) :
    (x ∈ w.toastTimeouts →
      addToRemoveQueue w.toastTimeouts x = w.toastTimeouts) ∧
    addToRemoveQueue (addToRemoveQueue w.toastTimeouts x) x =
      addToRemoveQueue w.toastTimeouts x ∧
    (addToRemoveQueue w.toastTimeouts x).Nodup ∧
    (applyAction (applyAction w (.dismiss (some x)))
        (.dismiss (some x))).toastTimeouts.count x = 1 := by
  have hmem : x ∈ addToRemoveQueue w.toastTimeouts x :=
    (mem_addToRemoveQueue _ _ _).mpr (Or.inr rfl)
  have htr : truthyId (some x) = true := by
    simpa [truthyId] using hx
  refine ⟨addToRemoveQueue_of_mem _ _, addToRemoveQueue_of_mem _ _ hmem, ?_, ?_⟩
  · exact nodup_addToRemoveQueue _ _ hn
  · have hstep : ∀ v : World,
        (applyAction v (.dismiss (some x))).toastTimeouts =
          addToRemoveQueue v.toastTimeouts x := by
      intro v
      simp [applyAction, dismissSchedule, htr]
    rw [hstep, hstep, addToRemoveQueue_of_mem _ _ hmem]
    exact List.count_eq_one_of_mem (nodup_addToRemoveQueue _ _ hn) hmem

/-- Witness for `schedule_idempotent`: two dismiss dispatches for the
same id on a concrete world leave one pending entry. -/
theorem schedule_idempotent_spot :
    ("1" : String) ≠ "" ∧ ([] : List String).Nodup ∧
    (applyAction (applyAction (World.mk ⟨[Toast.mk "1" true "a" "b"]⟩ [])
        (.dismiss (some "1")))
        (.dismiss (some "1"))).toastTimeouts.count "1" = 1 :=
  ⟨by decide, by decide,
   (schedule_idempotent (World.mk ⟨[Toast.mk "1" true "a" "b"]⟩ [])
      "1" (by decide) (by decide)).2.2.2⟩

/-- C10: `DISMISS_TOAST` for an id no current toast carries leaves the
toast list unchanged, yet unconditionally inserts a pending-removal
entry for that id, so the timeout map may hold ids absent from the
visible state. -/
theorem dismiss_unknown_schedules (w : World) (x : String) (hx : x ≠ "")
    (habs : ∀ t ∈ w.memoryState.toasts, t.id ≠ x) :
    (applyAction w (.dismiss (some x))).memoryState = w.memoryState ∧
    x ∈ (applyAction w (.dismiss (some x))).toastTimeouts := by
  have htr : truthyId (some x) = true := by
    simpa [truthyId] using hx
  constructor
  · ext1
    simp only [applyAction, reducer]
    rw [List.map_congr_left fun t ht =>
      if_neg (fun hor => hor.elim
        (fun h => habs t ht (Option.some.inj h).symm)
        (fun h => Option.noConfusion h)), List.map_id']
  · simp only [applyAction, dismissSchedule, htr, if_pos, Option.getD_some]
    exact (mem_addToRemoveQueue _ _ _).mpr (Or.inr rfl)

/-- Witness for `dismiss_unknown_schedules` on a concrete world. -/
theorem dismiss_unknown_schedules_spot :
    ("9" : String) ≠ "" ∧
    (∀ t ∈ (World.mk ⟨[Toast.mk "1" true "a" "b"]⟩ []).memoryState.toasts,
      t.id ≠ "9") ∧
    (applyAction (World.mk ⟨[Toast.mk "1" true "a" "b"]⟩ [])
        (.dismiss (some "9"))).memoryState =
      (World.mk ⟨[Toast.mk "1" true "a" "b"]⟩ []).memoryState ∧
    "9" ∈ (applyAction (World.mk ⟨[Toast.mk "1" true "a" "b"]⟩ [])
        (.dismiss (some "9"))).toastTimeouts := by
  have h := dismiss_unknown_schedules
    (World.mk ⟨[Toast.mk "1" true "a" "b"]⟩ []) "9" (by decide) (by decide)
  exact ⟨by decide, by decide, h.1, h.2⟩

/-- The digit accumulator never shrinks. -/
theorem length_le_toDigitsCore (b : Nat) :
    ∀ (fuel n : Nat) (ds : List Char),
      ds.length ≤ (Nat.toDigitsCore b fuel n ds).length := by
  intro fuel
  induction fuel with
  | zero => intro n ds; exact Nat.le_refl _
  | succ f ih =>
      intro n ds
      show ds.length ≤ (Nat.toDigitsCore b (f + 1) n ds).length
      rw [Nat.toDigitsCore]
      split
      · exact Nat.le_succ _
      · exact Nat.le_trans (Nat.le_succ ds.length)
          (ih (n / b) ((n % b).digitChar :: ds))

/-- `Nat.toDigits` produces at least one digit. -/
theorem toDigits_ne_nil (b n : Nat) : Nat.toDigits b n ≠ [] := by
  intro h
  rw [Nat.toDigits, Nat.toDigitsCore] at h
  revert h
  split
  · exact fun h => List.noConfusion h
  · intro h
    have hlen := length_le_toDigitsCore b n (n / b) [Nat.digitChar (n % b)]
    rw [h] at hlen
    exact Nat.not_succ_le_zero 0 hlen

/-- The decimal string of a natural number is never empty. -/
theorem repr_ne_empty (n : Nat) : Nat.repr n ≠ "" := by
  intro h
  exact toDigits_ne_nil 10 n (congrArg String.data h)

/-- Ids drawn from `genId` are nonempty strings, hence truthy. -/
theorem genId_ne_empty (count : Nat) : (genId count).2 ≠ "" :=
  repr_ne_empty _

/-- Dismissing a given id closes every toast carrying that id. -/
theorem dismiss_closes_target (s : ToastState) (x : String) :
    ∀ t ∈ (reducer s (.dismiss (some x))).toasts, t.id = x → t.isOpen = false := by
  intro t ht hti
  simp only [reducer, List.mem_map] at ht
  obtain ⟨u, hu, rfl⟩ := ht
  by_cases h : some x = some u.id ∨ (some x : Option String) = none
  · rw [if_pos h]
  · rw [if_neg h] at hti ⊢
    exact absurd (Or.inl (congrArg some hti.symm)) h

/-- C2: the `onOpenChange` synthesized by `toast(props)` dispatches
`DISMISS_TOAST` for the freshly generated id exactly when invoked with
`open = false`; that dispatch closes the toast with that id and
schedules its removal. -/
theorem toast_onOpenChange_dismisses (props : ToastInput) (count : Nat)
    (w : World) (id : String) (hid : id = (genId count).2) :
    toastOnOpenChange id false = some (.dismiss (some id)) ∧
    toastOnOpenChange id true = none ∧
    (∀ t ∈ (applyAction (toastCall props count w).2.2
        (.dismiss (some id))).memoryState.toasts,
      t.id = id → t.isOpen = false) ∧
    id ∈ (applyAction (toastCall props count w).2.2
        (.dismiss (some id))).toastTimeouts := by
  have hx : id ≠ "" := hid ▸ genId_ne_empty count
  have htr : truthyId (some id) = true := by
    simpa [truthyId] using hx
  refine ⟨rfl, rfl, ?_, ?_⟩
  · exact dismiss_closes_target _ id
  · simp only [applyAction, dismissSchedule, htr, if_pos, Option.getD_some]
    exact (mem_addToRemoveQueue _ _ _).mpr (Or.inr rfl)

/-- Witness for `toast_onOpenChange_dismisses`: the first generated id
is `"1"`, closing it externally dispatches its dismissal, and the
dismissal schedules its removal. -/
theorem toast_onOpenChange_dismisses_spot :
    ("1" : String) = (genId 0).2 ∧
    toastOnOpenChange "1" false = some (.dismiss (some "1")) ∧
    toastOnOpenChange "1" true = none ∧
    "1" ∈ (applyAction (toastCall ⟨"a", "b"⟩ 0 (World.mk ⟨[]⟩ [])).2.2
        (.dismiss (some "1"))).toastTimeouts := by
  have h := toast_onOpenChange_dismisses ⟨"a", "b"⟩ 0 (World.mk ⟨[]⟩ []) "1" rfl
  exact ⟨rfl, h.1, h.2.1, h.2.2.2⟩

/-- C9: `dispatch` replaces the state with the reducer's result and
notifies the listeners, in registration order, with that state; a
listener registered (at most once) and then unsubscribed receives no
later notification, while any listener still registered receives each
dispatch's new state; unsubscribing an absent listener is a no-op. -/
theorem dispatch_notifies_in_order (st : Store) (a : Action) (l : Nat) :
    (dispatchNotify st a).1.memoryState = reducer st.memoryState a ∧
    (dispatchNotify st a).2 =
      st.listeners.map (fun x => (x, reducer st.memoryState a)) ∧
    (l ∈ st.listeners →
      (l, reducer st.memoryState a) ∈ (dispatchNotify st a).2) ∧
    (st.listeners.count l ≤ 1 →
      ∀ (a' : Action) (s' : ToastState),
        (l, s') ∉ (dispatchNotify (unsubscribe st l) a').2) ∧
    (l ∉ st.listeners → unsubscribe st l = st) := by
  refine ⟨rfl, rfl, ?_, ?_, ?_⟩
  · intro h
    exact List.mem_map.mpr ⟨l, h, rfl⟩
  · intro hc a' s' hmem
    simp only [dispatchNotify, unsubscribe, List.mem_map] at hmem
    obtain ⟨x, hx, hxe⟩ := hmem
    have hxl : x = l := congrArg Prod.fst hxe
    subst hxl
    have hpos : 0 < (st.listeners.erase x).count x :=
      List.count_pos_iff.mpr hx
    rw [List.count_erase_self] at hpos
    omega
  · intro h
    have he : st.listeners.erase l = st.listeners :=
      List.erase_of_not_mem h
    simp [unsubscribe, he]

/-- Witness for `dispatch_notifies_in_order` on a concrete store. -/
theorem dispatch_notifies_in_order_spot :
    (7 ∈ ([7] : List Nat)) ∧
    ((7, reducer ⟨[]⟩ (.remove none)) ∈
      (dispatchNotify (Store.mk ⟨[]⟩ [7]) (.remove none)).2) ∧
    (([7] : List Nat).count 7 ≤ 1) ∧
    ((7, (⟨[]⟩ : ToastState)) ∉
      (dispatchNotify (unsubscribe (Store.mk ⟨[]⟩ [7]) 7) (.remove none)).2) ∧
    (9 ∉ ([7] : List Nat)) ∧
    unsubscribe (Store.mk ⟨[]⟩ [7]) 9 = Store.mk ⟨[]⟩ [7] := by
  have h := dispatch_notifies_in_order (Store.mk ⟨[]⟩ [7]) (.remove none) 7
  have h9 := dispatch_notifies_in_order (Store.mk ⟨[]⟩ [7]) (.remove none) 9
  refine ⟨by decide, h.2.2.1 (by decide), by decide,
    h.2.2.2.1 (by decide) (.remove none) ⟨[]⟩, by decide, h9.2.2.2.2 (by decide)⟩

/-- One reducer step cannot re-open id `x` when the action is safe for
`x`. -/
theorem dismissedFor_step (x : String) (s : ToastState) (a : Action)
    (hs : dismissedFor x s) (ha : safeFor x a = true) :
    dismissedFor x (reducer s a) := by
  cases a with
  | add t =>
      intro u hu hid
      simp only [reducer] at hu
      rcases List.mem_cons.mp (List.mem_of_mem_take hu) with rfl | hmem
      · simp only [safeFor] at ha
        simpa [hid] using ha
      · exact hs u hmem hid
  | update p =>
      intro u hu hid
      simp only [reducer, List.mem_map] at hu
      obtain ⟨v, hv, rfl⟩ := hu
      by_cases h : v.id = p.id
      · rw [if_pos h] at hid ⊢
        simp only [mergeToast] at hid ⊢
        simp only [safeFor] at ha
        simp only [hid, bne_self_eq_false, Bool.false_or, Bool.or_eq_true,
          beq_iff_eq] at ha
        rcases ha with ha | ha
        · rw [ha, Option.getD_none]
          exact hs v hv (h.trans hid)
        · rw [ha, Option.getD_some]
      · rw [if_neg h] at hid ⊢
        exact hs v hv hid
  | dismiss tid =>
      intro u hu hid
      simp only [reducer, List.mem_map] at hu
      obtain ⟨v, hv, rfl⟩ := hu
      by_cases h : tid = some v.id ∨ tid = none
      · rw [if_pos h]
      · rw [if_neg h] at hid ⊢
        exact hs v hv hid
  | remove tid =>
      intro u hu hid
      cases tid with
      | none => simp [reducer] at hu
      | some y =>
          simp only [reducer] at hu
          exact hs u (List.mem_of_mem_filter hu) hid

/-- C3 counterexample: the claim fails as stated — in the state
holding the dismissed toast `"1"` (`open = false`), dispatching
`UPDATE_TOAST` with partial `{id: "1", open: true}` yields a state in
which toast `"1"` has `open = true` again. -/
theorem open_resurrection_cex :
    Toast.mk "1" false "a" "b" ∈
      (ToastState.mk [Toast.mk "1" false "a" "b"]).toasts ∧
    (Toast.mk "1" false "a" "b").isOpen = false ∧
    ∃ t ∈ (reducer (ToastState.mk [Toast.mk "1" false "a" "b"])
        (.update (ToastPatch.mk "1" (some true) none none))).toasts,
      t.id = "1" ∧ t.isOpen = true := by
  decide

/-- C3 (amended): once every toast carrying id `x` is closed, it stays
closed through any action sequence that is safe for `x` — i.e. in
which no `UPDATE_TOAST` partial targeting `x` carries `open: true` and
no `ADD_TOAST` re-adds a toast with id `x` and `open = true`. -/
theorem no_reopen_of_safe (x : String) (s : ToastState) (l : List Action)
    (hs : dismissedFor x s) (hl : ∀ a ∈ l, safeFor x a = true) :
    dismissedFor x (reduceAll s l) := by
  induction l generalizing s with
  | nil => exact hs
  | cons a l ih =>
      exact ih (reducer s a)
        (dismissedFor_step x s a hs (hl a (List.mem_cons_self a l)))
        fun b hb => hl b (List.mem_cons_of_mem a hb)

/-- Witness for `no_reopen_of_safe`: a dismissed toast stays closed
through a DISMISS, a payload-only UPDATE and an ADD of a fresh id. -/
theorem no_reopen_of_safe_spot :
    dismissedFor "1" ⟨[Toast.mk "1" false "a" "b"]⟩ ∧
    (∀ a ∈ [Action.dismiss none,
            Action.update ⟨"1", none, some "c", none⟩,
            Action.add ⟨"2", true, "t", "d"⟩], safeFor "1" a = true) ∧
    dismissedFor "1" (reduceAll ⟨[Toast.mk "1" false "a" "b"]⟩
      [Action.dismiss none,
       Action.update ⟨"1", none, some "c", none⟩,
       Action.add ⟨"2", true, "t", "d"⟩]) :=
  ⟨by decide, by decide,
   no_reopen_of_safe "1" ⟨[Toast.mk "1" false "a" "b"]⟩
     [Action.dismiss none,
      Action.update ⟨"1", none, some "c", none⟩,
      Action.add ⟨"2", true, "t", "d"⟩] (by decide) (by decide)⟩

end UseToast
